import Mathlib

/- Verification development for the binary positioned-I/O module
`src/shared/file_io.py` (classes `BinaryReader` and `BinaryWriter`).

The file object is modelled as an in-memory byte store: a list of bytes
(natural numbers below 256) together with the current cursor position.
Python exceptions are modelled by the `Err` type; an operation that can
raise returns an `Except Err _` result, paired with the file state after
the operation (a raised exception leaves the mutated state behind, as in
Python).

Floating-point values are modelled by their IEEE-754 bit patterns: for a
value representable in the target format, `struct.pack` with format
`>f` (resp. `>d`) produces exactly the big-endian bytes of the value's
32-bit (resp. 64-bit) pattern, and `struct.unpack` inverts this, so the
byte-level content of the code is captured faithfully.  The embedding
does not model Python's implicit int-to-float conversion in `struct.pack`:
passing a value of the wrong shape to a descriptor is an encoding error. -/

namespace BinFile

instance {ε α : Type} [DecidableEq ε] [DecidableEq α] : DecidableEq (Except ε α) :=
  fun a b =>
    match a, b with
    | .ok x, .ok y => if h : x = y then .isTrue (by rw [h]) else .isFalse (by simp [h])
    | .error x, .error y => if h : x = y then .isTrue (by rw [h]) else .isFalse (by simp [h])
    | .ok _, .error _ => .isFalse (by simp)
    | .error _, .ok _ => .isFalse (by simp)

/-- Python exception kinds raised by the module. -/
inductive Err where
  | valueError
  | osError
  | structError
  | indexError
  | unicodeEncodeError
  | typeError
  | keyError
  deriving DecidableEq

/-- Values flowing through `read`/`write`: Python ints, floats (as IEEE
bit patterns) and strings (as lists of character codes). -/
inductive Value where
  | vint (i : Int)
  | vfloat (bits : Nat)
  | vdouble (bits : Nat)
  | vstr (codes : List Nat)
  deriving DecidableEq

/-- The open file: its byte content and the current cursor position. -/
structure FileState where
  data : List Nat
  pos : Nat
  deriving DecidableEq

/-- Python `file.read(n)`: returns up to `n` bytes from the current
position (fewer when the file ends first), advancing the position by the
number of bytes actually returned. -/
def fread (st : FileState) (n : Nat) : List Nat × FileState :=
  let bs := (st.data.drop st.pos).take n
  (bs, { st with pos := st.pos + bs.length })

/-- Python `file.write(bs)` at the current position: overwrites in place,
extends the file at the end, and zero-fills any gap between the old end
of file and a position that was seeked past the end. -/
def fwrite (st : FileState) (bs : List Nat) : FileState :=
  { data := st.data.take st.pos ++ List.replicate (st.pos - st.data.length) 0
      ++ bs ++ st.data.drop (st.pos + bs.length),
    pos := st.pos + bs.length }

/-- `BinaryReader.seek(offset, whence)`: dispatches on `whence`
('start' or 'current'), raising `ValueError` on any other value; the
underlying `file.seek` raises `OSError` on a negative target position. -/
def seek (st : FileState) (offset : Int) (whence : String) : Except Err FileState :=
  if whence = "start" then
    if offset < 0 then .error .osError
    else .ok { st with pos := offset.toNat }
  else if whence = "current" then
    if (st.pos : Int) + offset < 0 then .error .osError
    else .ok { st with pos := ((st.pos : Int) + offset).toNat }
  else .error .valueError

/-- `BinaryReader.tell()`: the current position. -/
def tell (st : FileState) : Nat := st.pos

/-- Big-endian byte decoding: `struct.unpack` of an unsigned format field
reassembles the bytes most-significant first. -/
def beBytesToNat (bs : List Nat) : Nat := bs.foldl (fun a b => a * 256 + b) 0

/-- Big-endian byte encoding of the `w` low base-256 digits of `n`,
most-significant first, as produced by `struct.pack`. -/
def beNatToBytes : Nat → Nat → List Nat
  | 0, _ => []
  | w + 1, n => beNatToBytes w (n / 256) ++ [n % 256]

/-- Two's-complement reading of an unsigned `w`-byte value, as done by
`struct.unpack` with the signed formats `>b`, `>h`, `>i`. -/
def toSigned (w : Nat) (u : Nat) : Int :=
  if u < 2 ^ (8 * w - 1) then (u : Int) else (u : Int) - 2 ^ (8 * w)

/-- Two's-complement encoding of an in-range signed value into an
unsigned `w`-byte value, as done by `struct.pack`. -/
def toUnsigned (w : Nat) (i : Int) : Nat := (i % ((2 : Int) ^ (8 * w))).toNat

/-- Unpacking of an unsigned big-endian field of width `w` from the
current position; `struct.unpack` raises `struct.error` when
`file.read(w)` returned fewer than `w` bytes. -/
def unpackUnsigned (st : FileState) (w : Nat) : Except Err Value × FileState :=
  let r := fread st w
  if r.1.length = w then (.ok (.vint (beBytesToNat r.1)), r.2)
  else (.error .structError, r.2)

/-- Unpacking of a signed big-endian field of width `w`. -/
def unpackSigned (st : FileState) (w : Nat) : Except Err Value × FileState :=
  let r := fread st w
  if r.1.length = w then (.ok (.vint (toSigned w (beBytesToNat r.1))), r.2)
  else (.error .structError, r.2)

/-- Unpacking of a `>f` field: 4 bytes, yielding the 32-bit pattern. -/
def unpackFloat (st : FileState) : Except Err Value × FileState :=
  let r := fread st 4
  if r.1.length = 4 then (.ok (.vfloat (beBytesToNat r.1)), r.2)
  else (.error .structError, r.2)

/-- Unpacking of a `>d` field: 8 bytes, yielding the 64-bit pattern. -/
def unpackDouble (st : FileState) : Except Err Value × FileState :=
  let r := fread st 8
  if r.1.length = 8 then (.ok (.vdouble (beBytesToNat r.1)), r.2)
  else (.error .structError, r.2)

/-- Core loop of `BinaryReader._read_string` on the byte suffix at the
current position: collect bytes until the first zero byte (consumed),
`none` when the file ends first (Python's `self.file.read(1)[0]` raises
`IndexError` on the empty bytes object). -/
def readCString : List Nat → Option (List Nat)
  | [] => none
  | b :: rest => if b = 0 then some [] else (readCString rest).map (b :: ·)

/-- `BinaryReader._read_string`: reads byte-by-byte from the current
position until a zero byte, returning the accumulated character codes. -/
def readString (st : FileState) : Except Err Value × FileState :=
  match readCString (st.data.drop st.pos) with
  | none => (.error .indexError, { st with pos := max st.pos st.data.length })
  | some s => (.ok (.vstr s), { st with pos := st.pos + s.length + 1 })

/-- The nine primitive type names of `BinaryReader.is_primitive`. -/
def primitiveNames : List String :=
  ["uchar", "ushort", "uint", "char", "short", "int", "float", "double", "string"]

/-- `BinaryReader.is_primitive(type)`: membership in the nine names. -/
def is_primitive (ty : String) : Bool := decide (ty ∈ primitiveNames)

/-- The `primitive_sizes` dict of `BinaryReader.primitive_size`. -/
def primitive_sizes : List (String × Nat) :=
  [("uchar", 1), ("char", 1), ("ushort", 2), ("short", 2),
   ("uint", 4), ("int", 4), ("float", 4), ("double", 8)]

/-- `BinaryReader.primitive_size(type)`: 0 for 'string' and for
non-primitive names, otherwise a dict lookup (`KeyError` if absent,
which the guards make unreachable). -/
def primitive_size (ty : String) : Except Err Nat :=
  if ty = "string" then .ok 0
  else if is_primitive ty = false then .ok 0
  else
    match primitive_sizes.lookup ty with
    | some n => .ok n
    | none => .error .keyError

/-- `BinaryReader.is_array(type)`: Python `type.endswith('[]')`. -/
def is_array (ty : String) : Bool := "[]".toList.isSuffixOf ty.toList

/-- `BinaryReader.is_pointer(type)`: Python `type.endswith('*')`. -/
def is_pointer (ty : String) : Bool := "*".toList.isSuffixOf ty.toList

/-- `BinaryReader.read(type, base, offset, whence)`: seeks to
`base + offset` relative to `whence`, then dispatches on the type name;
an unrecognized name raises `ValueError` (after the seek has happened). -/
def read (st : FileState) (ty : String) (base offset : Int) (whence : String) :
    Except Err Value × FileState :=
  match seek st (base + offset) whence with
  | .error e => (.error e, st)
  | .ok st1 =>
    if ty = "uchar" then unpackUnsigned st1 1
    else if ty = "ushort" then unpackUnsigned st1 2
    else if ty = "uint" then unpackUnsigned st1 4
    else if ty = "char" then unpackSigned st1 1
    else if ty = "short" then unpackSigned st1 2
    else if ty = "int" then unpackSigned st1 4
    else if ty = "float" then unpackFloat st1
    else if ty = "double" then unpackDouble st1
    else if ty = "string" then readString st1
    else (.error .valueError, st1)

/-- `BinaryReader.read_chunk(offset, size, whence)`: seeks, then returns
whatever `file.read(size)` yields. -/
def read_chunk (st : FileState) (offset : Int) (size : Nat) (whence : String) :
    Except Err (List Nat) × FileState :=
  match seek st offset whence with
  | .error e => (.error e, st)
  | .ok st1 =>
    let r := fread st1 size
    (.ok r.1, r.2)

/-- Packing of an unsigned field of width `w`: `struct.pack` raises
`struct.error` when the argument is not an integer or does not fit in
`[0, 2^(8w))`. -/
def packUnsigned (st : FileState) (w : Nat) (v : Value) : Except Err Nat × FileState :=
  match v with
  | .vint i =>
    if 0 ≤ i ∧ i < (2 : Int) ^ (8 * w) then (.ok w, fwrite st (beNatToBytes w i.toNat))
    else (.error .structError, st)
  | _ => (.error .structError, st)

/-- Packing of a signed field of width `w`: range `[-2^(8w-1), 2^(8w-1))`,
encoded in two's complement. -/
def packSigned (st : FileState) (w : Nat) (v : Value) : Except Err Nat × FileState :=
  match v with
  | .vint i =>
    if -((2 : Int) ^ (8 * w - 1)) ≤ i ∧ i < (2 : Int) ^ (8 * w - 1) then
      (.ok w, fwrite st (beNatToBytes w (toUnsigned w i)))
    else (.error .structError, st)
  | _ => (.error .structError, st)

/-- Packing of a `>f` field: the 4 big-endian bytes of the bit pattern. -/
def packFloat (st : FileState) (v : Value) : Except Err Nat × FileState :=
  match v with
  | .vfloat bits => (.ok 4, fwrite st (beNatToBytes 4 bits))
  | _ => (.error .structError, st)

/-- Packing of a `>d` field: the 8 big-endian bytes of the bit pattern. -/
def packDouble (st : FileState) (v : Value) : Except Err Nat × FileState :=
  match v with
  | .vdouble bits => (.ok 8, fwrite st (beNatToBytes 8 bits))
  | _ => (.error .structError, st)

/-- Packing of a string: `bytes(data, 'ascii')` raises
`UnicodeEncodeError` on any character code of 128 or more (and
`TypeError` on a non-string argument); a zero byte is appended. -/
def packString (st : FileState) (v : Value) : Except Err Nat × FileState :=
  match v with
  | .vstr s =>
    if s.all (fun c => c < 128) then (.ok (s.length + 1), fwrite st (s ++ [0]))
    else (.error .unicodeEncodeError, st)
  | _ => (.error .typeError, st)

/-- `BinaryWriter.write(type, data, base, offset, whence)`: seeks to
`base + offset` relative to `whence`, then encodes `data` per the type
name, returning the byte count written; an unrecognized name raises
`ValueError` (after the seek has happened). -/
def write (st : FileState) (ty : String) (v : Value) (base offset : Int)
    (whence : String) : Except Err Nat × FileState :=
  match seek st (base + offset) whence with
  | .error e => (.error e, st)
  | .ok st1 =>
    if ty = "uchar" then packUnsigned st1 1 v
    else if ty = "ushort" then packUnsigned st1 2 v
    else if ty = "uint" then packUnsigned st1 4 v
    else if ty = "char" then packSigned st1 1 v
    else if ty = "short" then packSigned st1 2 v
    else if ty = "int" then packSigned st1 4 v
    else if ty = "float" then packFloat st1 v
    else if ty = "double" then packDouble st1 v
    else if ty = "string" then packString st1 v
    else (.error .valueError, st1)

/-- `BinaryWriter.write_chunk(data, offset, whence)`: seeks, then writes
the raw bytes verbatim. -/
def write_chunk (st : FileState) (bs : List Nat) (offset : Int) (whence : String) :
    Except Err Nat × FileState :=
  match seek st offset whence with
  | .error e => (.error e, st)
  | .ok st1 => (.ok bs.length, fwrite st1 bs)

/-- The eight fixed-width atomic descriptors. -/
def fixedWidthNames : List String :=
  ["uchar", "ushort", "uint", "char", "short", "int", "float", "double"]

/-- Representable range of a value for a fixed-width descriptor, matching
the range checks of `struct.pack` (floats as their bit patterns). -/
def inRangeB : String → Value → Bool
  | "uchar", .vint i => decide (0 ≤ i ∧ i < (2 : Int) ^ 8)
  | "ushort", .vint i => decide (0 ≤ i ∧ i < (2 : Int) ^ 16)
  | "uint", .vint i => decide (0 ≤ i ∧ i < (2 : Int) ^ 32)
  | "char", .vint i => decide (-((2 : Int) ^ 7) ≤ i ∧ i < (2 : Int) ^ 7)
  | "short", .vint i => decide (-((2 : Int) ^ 15) ≤ i ∧ i < (2 : Int) ^ 15)
  | "int", .vint i => decide (-((2 : Int) ^ 31) ≤ i ∧ i < (2 : Int) ^ 31)
  | "float", .vfloat bits => decide (bits < 2 ^ 32)
  | "double", .vdouble bits => decide (bits < 2 ^ 64)
  | _, _ => false

/-- Encoding a value into `w` big-endian bytes always yields `w` bytes. -/
theorem length_beNatToBytes (w : Nat) : ∀ n, (beNatToBytes w n).length = w := by
  induction w with
  | zero => intro n; rfl
  | succ w ih => intro n; simp [beNatToBytes, ih]

/-- Folding a decoded list with one extra low byte. -/
theorem beBytesToNat_append (l : List Nat) (b : Nat) :
    beBytesToNat (l ++ [b]) = beBytesToNat l * 256 + b := by
  simp [beBytesToNat, List.foldl_append]

/-- Big-endian decoding inverts big-endian encoding of an in-range value. -/
theorem beBytesToNat_beNatToBytes (w : Nat) : ∀ n, n < 256 ^ w →
    beBytesToNat (beNatToBytes w n) = n := by
  induction w with
  | zero =>
    intro n h
    have : n = 0 := by simpa using Nat.lt_one_iff.mp (by simpa using h)
    subst this; rfl
  | succ w ih =>
    intro n h
    have h1 : n / 256 < 256 ^ w := by
      apply Nat.div_lt_of_lt_mul
      rw [pow_succ] at h
      omega
    rw [beNatToBytes, beBytesToNat_append, ih _ h1]
    omega

/-- Content of the written file from the written position onward: the
written bytes, then whatever of the old file they did not overwrite. -/
theorem fwrite_data_drop (st : FileState) (bs : List Nat) :
    (fwrite st bs).data.drop st.pos = bs ++ st.data.drop (st.pos + bs.length) := by
  have hlen : (st.data.take st.pos ++ List.replicate (st.pos - st.data.length) 0).length
      = st.pos := by
    simp [List.length_take]
    omega
  show (st.data.take st.pos ++ List.replicate (st.pos - st.data.length) 0
      ++ bs ++ st.data.drop (st.pos + bs.length)).drop st.pos = _
  rw [show st.data.take st.pos ++ List.replicate (st.pos - st.data.length) 0
      ++ bs ++ st.data.drop (st.pos + bs.length)
      = (st.data.take st.pos ++ List.replicate (st.pos - st.data.length) 0)
        ++ (bs ++ st.data.drop (st.pos + bs.length)) by simp]
  exact List.drop_left' hlen

/-- Seeking from the start to a non-negative offset. -/
theorem seek_start (st : FileState) (off : Int) (h : 0 ≤ off) :
    seek st off "start" = .ok { st with pos := off.toNat } := by
  unfold seek
  rw [if_pos rfl, if_neg (by omega)]

/-- Relative seek whose target is non-negative. -/
theorem seek_current (st : FileState) (off : Int) (h : 0 ≤ (st.pos : Int) + off) :
    seek st off "current" = .ok { st with pos := ((st.pos : Int) + off).toNat } := by
  unfold seek
  rw [if_neg (by decide), if_pos rfl, if_neg (by omega)]

/-- Decoding the two's-complement encoding of an in-range signed value
gives the value back. -/
theorem toSigned_toUnsigned (w : Nat) (i : Int)
    (hw : 0 < w) (hlo : -((2 : Int) ^ (8 * w - 1)) ≤ i)
    (hhi : i < (2 : Int) ^ (8 * w - 1)) :
    toSigned w (toUnsigned w i) = i := by
  have h8 : 8 * w - 1 + 1 = 8 * w := by omega
  have hB : (2 : Int) ^ (8 * w) = 2 * 2 ^ (8 * w - 1) := by
    conv_lhs => rw [← h8]
    rw [pow_succ]; ring
  have hBpos : (0 : Int) < 2 ^ (8 * w) := by positivity
  have hmod_nonneg : 0 ≤ i % 2 ^ (8 * w) := Int.emod_nonneg i (by omega)
  have hmod_lt : i % 2 ^ (8 * w) < 2 ^ (8 * w) := Int.emod_lt_of_pos i hBpos
  have hcast : ((2 ^ (8 * w - 1) : Nat) : Int) = (2 : Int) ^ (8 * w - 1) := by
    push_cast; ring
  have hrepr : i % 2 ^ (8 * w) = i ∨ i % 2 ^ (8 * w) = i + 2 ^ (8 * w) := by
    by_cases hc : 0 ≤ i
    · left; exact Int.emod_eq_of_lt hc (by omega)
    · right
      have h2 : (i + 2 ^ (8 * w)) % 2 ^ (8 * w) = i % 2 ^ (8 * w) := Int.add_emod_self
      rw [← h2]
      exact Int.emod_eq_of_lt (by omega) (by omega)
  unfold toSigned toUnsigned
  have htn : ((i % 2 ^ (8 * w)).toNat : Int) = i % 2 ^ (8 * w) :=
    Int.toNat_of_nonneg hmod_nonneg
  split
  next hlt =>
    have h1 : ((i % 2 ^ (8 * w)).toNat : Int) < ((2 ^ (8 * w - 1) : Nat) : Int) := by
      exact_mod_cast hlt
    rw [hcast] at h1
    rcases hrepr with h | h <;> omega
  next hge =>
    have h1 : ((2 ^ (8 * w - 1) : Nat) : Int) ≤ ((i % 2 ^ (8 * w)).toNat : Int) := by
      exact_mod_cast Nat.le_of_not_lt hge
    rw [hcast] at h1
    rcases hrepr with h | h <;> omega

/-- Two's-complement encoding fits in `w` bytes. -/
theorem toUnsigned_lt (w : Nat) (i : Int) : toUnsigned w i < 256 ^ w := by
  have hBpos : (0 : Int) < 2 ^ (8 * w) := by positivity
  have hmod_lt : i % 2 ^ (8 * w) < 2 ^ (8 * w) := Int.emod_lt_of_pos i hBpos
  have hmod_nonneg : 0 ≤ i % 2 ^ (8 * w) := Int.emod_nonneg i (by omega)
  have hpow : ((256 : Nat) : Int) ^ w = (2 : Int) ^ (8 * w) := by
    rw [show ((256 : Nat) : Int) = (2 : Int) ^ 8 by norm_num, ← pow_mul]
  unfold toUnsigned
  have : ((toUnsigned w i : Nat) : Int) = i % 2 ^ (8 * w) := Int.toNat_of_nonneg hmod_nonneg
  zify
  calc (i % (2 : Int) ^ (8 * w)).toNat = i % 2 ^ (8 * w) := Int.toNat_of_nonneg hmod_nonneg
    _ < 2 ^ (8 * w) := hmod_lt
    _ = ((256 : Nat) : Int) ^ w := hpow.symm


theorem pow_256_eq (w : Nat) : (256 : Nat) ^ w = 2 ^ (8 * w) := by
  rw [show (256 : Nat) = 2 ^ 8 by norm_num, ← pow_mul]

theorem pow_256_cast (w : Nat) : ((256 ^ w : Nat) : Int) = (2 : Int) ^ (8 * w) := by
  rw [pow_256_eq]
  push_cast
  ring

theorem fwrite_readback (st : FileState) (p : Nat) (bs : List Nat) :
    ((fwrite { st with pos := p } bs).data.drop p).take bs.length = bs := by
  have h := fwrite_data_drop { st with pos := p } bs
  simp only at h
  rw [h]
  exact List.take_left' rfl

theorem pack_unpack_unsigned (st : FileState) (p w : Nat) (i : Int)
    (h1 : 0 ≤ i) (h2 : i < (2 : Int) ^ (8 * w)) :
    (packUnsigned { st with pos := p } w (.vint i)).1 = .ok w ∧
    (unpackUnsigned { (packUnsigned { st with pos := p } w (.vint i)).2 with pos := p } w).1
      = .ok (.vint i) := by
  have hcond : 0 ≤ i ∧ i < (2 : Int) ^ (8 * w) := ⟨h1, h2⟩
  have hlt : i.toNat < 256 ^ w := by
    have := pow_256_cast w
    omega
  constructor
  · simp [packUnsigned, hcond]
  · simp only [packUnsigned, if_pos hcond]
    simp only [unpackUnsigned, fread]
    rw [show ({ fwrite { st with pos := p } (beNatToBytes w i.toNat) with pos := p }
        : FileState).data = (fwrite { st with pos := p } (beNatToBytes w i.toNat)).data from rfl]
    have ht : ((fwrite { st with pos := p } (beNatToBytes w i.toNat)).data.drop p).take w
        = beNatToBytes w i.toNat := by
      have := fwrite_readback st p (beNatToBytes w i.toNat)
      rwa [length_beNatToBytes] at this
    simp only [ht]
    rw [if_pos (length_beNatToBytes w i.toNat)]
    rw [beBytesToNat_beNatToBytes w i.toNat hlt]
    simp [Int.toNat_of_nonneg h1]


theorem pack_unpack_signed (st : FileState) (p w : Nat) (i : Int) (hw : 0 < w)
    (hlo : -((2 : Int) ^ (8 * w - 1)) ≤ i) (hhi : i < (2 : Int) ^ (8 * w - 1)) :
    (packSigned { st with pos := p } w (.vint i)).1 = .ok w ∧
    (unpackSigned { (packSigned { st with pos := p } w (.vint i)).2 with pos := p } w).1
      = .ok (.vint i) := by
  have hcond : -((2 : Int) ^ (8 * w - 1)) ≤ i ∧ i < (2 : Int) ^ (8 * w - 1) := ⟨hlo, hhi⟩
  constructor
  · simp [packSigned, hcond]
  · simp only [packSigned, if_pos hcond]
    simp only [unpackSigned, fread]
    have ht : ((fwrite { st with pos := p } (beNatToBytes w (toUnsigned w i))).data.drop
        p).take w = beNatToBytes w (toUnsigned w i) := by
      have := fwrite_readback st p (beNatToBytes w (toUnsigned w i))
      rwa [length_beNatToBytes] at this
    simp only [ht]
    rw [if_pos (length_beNatToBytes w (toUnsigned w i))]
    rw [beBytesToNat_beNatToBytes w (toUnsigned w i) (toUnsigned_lt w i)]
    rw [toSigned_toUnsigned w i hw hlo hhi]

theorem pack_unpack_float (st : FileState) (p : Nat) (bits : Nat) (h : bits < 2 ^ 32) :
    (packFloat { st with pos := p } (.vfloat bits)).1 = .ok 4 ∧
    (unpackFloat { (packFloat { st with pos := p } (.vfloat bits)).2 with pos := p }).1
      = .ok (.vfloat bits) := by
  constructor
  · simp [packFloat]
  · simp only [packFloat]
    simp only [unpackFloat, fread]
    have ht : ((fwrite { st with pos := p } (beNatToBytes 4 bits)).data.drop p).take 4
        = beNatToBytes 4 bits := by
      have := fwrite_readback st p (beNatToBytes 4 bits)
      rwa [length_beNatToBytes] at this
    simp only [ht]
    rw [if_pos (length_beNatToBytes 4 bits)]
    rw [beBytesToNat_beNatToBytes 4 bits (by norm_num at h ⊢; omega)]

theorem pack_unpack_double (st : FileState) (p : Nat) (bits : Nat) (h : bits < 2 ^ 64) :
    (packDouble { st with pos := p } (.vdouble bits)).1 = .ok 8 ∧
    (unpackDouble { (packDouble { st with pos := p } (.vdouble bits)).2 with pos := p }).1
      = .ok (.vdouble bits) := by
  constructor
  · simp [packDouble]
  · simp only [packDouble]
    simp only [unpackDouble, fread]
    have ht : ((fwrite { st with pos := p } (beNatToBytes 8 bits)).data.drop p).take 8
        = beNatToBytes 8 bits := by
      have := fwrite_readback st p (beNatToBytes 8 bits)
      rwa [length_beNatToBytes] at this
    simp only [ht]
    rw [if_pos (length_beNatToBytes 8 bits)]
    rw [beBytesToNat_beNatToBytes 8 bits (by norm_num at h ⊢; omega)]

theorem seek_start_pos (st : FileState) (pos : Nat) :
    seek st ((pos : Int) + 0) "start" = .ok { st with pos := pos } := by
  rw [seek_start st _ (by omega)]
  norm_num

/-- C1: for every fixed-width atomic descriptor ('uchar', 'ushort', 'uint',
'char', 'short', 'int', 'float', 'double') and every value within the
descriptor's representable range (floats by their bit patterns), writing
the value at a position and reading the same descriptor back from that
position on the resulting resource returns the value. -/
theorem write_read_roundtrip (st : FileState) (ty : String) (v : Value) (pos : Nat)
    (hty : ty ∈ fixedWidthNames) (hv : inRangeB ty v = true) :
    (∃ n, (write st ty v (pos : Int) 0 "start").1 = .ok n) ∧
      (read (write st ty v (pos : Int) 0 "start").2 ty (pos : Int) 0 "start").1 = .ok v := by
  have hsk : ∀ s : FileState, seek s ((pos : Int) + 0) "start" = .ok { s with pos := pos } :=
    fun s => seek_start_pos s pos
  fin_cases hty
  · cases v with
    | vint i =>
      have hr : 0 ≤ i ∧ i < (2 : Int) ^ 8 := by simpa [inRangeB] using hv
      have H := pack_unpack_unsigned st pos 1 i hr.1 (by norm_num; omega)
      simp only [write, hsk, read]
      norm_num
      exact ⟨⟨1, H.1⟩, H.2⟩
    | vfloat b => simp [inRangeB] at hv
    | vdouble b => simp [inRangeB] at hv
    | vstr s => simp [inRangeB] at hv
  · cases v with
    | vint i =>
      have hr : 0 ≤ i ∧ i < (2 : Int) ^ 16 := by simpa [inRangeB] using hv
      have H := pack_unpack_unsigned st pos 2 i hr.1 (by norm_num; omega)
      simp only [write, hsk, read]
      norm_num
      exact ⟨⟨2, H.1⟩, H.2⟩
    | vfloat b => simp [inRangeB] at hv
    | vdouble b => simp [inRangeB] at hv
    | vstr s => simp [inRangeB] at hv
  · cases v with
    | vint i =>
      have hr : 0 ≤ i ∧ i < (2 : Int) ^ 32 := by simpa [inRangeB] using hv
      have H := pack_unpack_unsigned st pos 4 i hr.1 (by norm_num; omega)
      simp only [write, hsk, read]
      norm_num
      exact ⟨⟨4, H.1⟩, H.2⟩
    | vfloat b => simp [inRangeB] at hv
    | vdouble b => simp [inRangeB] at hv
    | vstr s => simp [inRangeB] at hv
  · cases v with
    | vint i =>
      have hr : -((2 : Int) ^ 7) ≤ i ∧ i < (2 : Int) ^ 7 := by simpa [inRangeB] using hv
      have H := pack_unpack_signed st pos 1 i (by norm_num)
        (by norm_num; omega) (by norm_num; omega)
      simp only [write, hsk, read]
      norm_num
      exact ⟨⟨1, H.1⟩, H.2⟩
    | vfloat b => simp [inRangeB] at hv
    | vdouble b => simp [inRangeB] at hv
    | vstr s => simp [inRangeB] at hv
  · cases v with
    | vint i =>
      have hr : -((2 : Int) ^ 15) ≤ i ∧ i < (2 : Int) ^ 15 := by simpa [inRangeB] using hv
      have H := pack_unpack_signed st pos 2 i (by norm_num)
        (by norm_num; omega) (by norm_num; omega)
      simp only [write, hsk, read]
      norm_num
      exact ⟨⟨2, H.1⟩, H.2⟩
    | vfloat b => simp [inRangeB] at hv
    | vdouble b => simp [inRangeB] at hv
    | vstr s => simp [inRangeB] at hv
  · cases v with
    | vint i =>
      have hr : -((2 : Int) ^ 31) ≤ i ∧ i < (2 : Int) ^ 31 := by simpa [inRangeB] using hv
      have H := pack_unpack_signed st pos 4 i (by norm_num)
        (by norm_num; omega) (by norm_num; omega)
      simp only [write, hsk, read]
      norm_num
      exact ⟨⟨4, H.1⟩, H.2⟩
    | vfloat b => simp [inRangeB] at hv
    | vdouble b => simp [inRangeB] at hv
    | vstr s => simp [inRangeB] at hv
  · cases v with
    | vint i => simp [inRangeB] at hv
    | vfloat b =>
      have hr : b < 2 ^ 32 := by simpa [inRangeB] using hv
      have H := pack_unpack_float st pos b hr
      simp only [write, hsk, read]
      norm_num
      exact ⟨⟨4, H.1⟩, H.2⟩
    | vdouble b => simp [inRangeB] at hv
    | vstr s => simp [inRangeB] at hv
  · cases v with
    | vint i => simp [inRangeB] at hv
    | vfloat b => simp [inRangeB] at hv
    | vdouble b =>
      have hr : b < 2 ^ 64 := by simpa [inRangeB] using hv
      have H := pack_unpack_double st pos b hr
      simp only [write, hsk, read]
      norm_num
      exact ⟨⟨8, H.1⟩, H.2⟩
    | vstr s => simp [inRangeB] at hv

/-- C1 witness: the round trip instantiated at descriptor 'uint', value
305419896, position 3, on an empty file. -/
theorem write_read_roundtrip_witness :
    (∃ n, (write ⟨[], 0⟩ "uint" (.vint 305419896) ((3 : Nat) : Int) 0 "start").1 = .ok n) ∧
      (read (write ⟨[], 0⟩ "uint" (.vint 305419896) ((3 : Nat) : Int) 0 "start").2 "uint"
        ((3 : Nat) : Int) 0 "start").1 = .ok (.vint 305419896) :=
  write_read_roundtrip ⟨[], 0⟩ "uint" (.vint 305419896) 3 (by decide) (by decide)

/-- C2 counterexample: on a 2-byte file, `read_chunk(0, 4)` returns the
2 available bytes without raising, contradicting the claim that a short
read always fails. -/
theorem read_chunk_counterexample :
    (read_chunk ⟨[1, 2], 0⟩ 0 4 "start").1 = .ok [1, 2] ∧ List.length [1, 2] < 4 := by
  constructor
  · decide
  · decide

/-- C2 amended: `read_chunk(offset, size, whence)` seeks, then returns
without error whatever bytes are available from the seeked position, up
to `size` — exactly `size` bytes when enough remain, fewer otherwise;
a short read is silently truncated, never an error. -/
theorem read_chunk_returns_available (st : FileState) (offset : Int) (size : Nat)
    (whence : String) (st1 : FileState) (hseek : seek st offset whence = .ok st1) :
    (read_chunk st offset size whence).1 = .ok ((st1.data.drop st1.pos).take size) ∧
      ((st1.data.drop st1.pos).take size).length = min size (st1.data.length - st1.pos) := by
  constructor
  · simp [read_chunk, hseek, fread]
  · simp [List.length_take]

/-- C2 witness: the amended statement at the 2-byte file, offset 0,
size 4: the result is the whole 2-byte content. -/
theorem read_chunk_returns_available_witness :
    (read_chunk ⟨[1, 2], 0⟩ 0 4 "start").1 = .ok ((([1, 2] : List Nat).drop 0).take 4) ∧
      ((([1, 2] : List Nat).drop 0).take 4).length = min 4 (([1, 2] : List Nat).length - 0) :=
  read_chunk_returns_available ⟨[1, 2], 0⟩ 0 4 "start" ⟨[1, 2], 0⟩ (by decide)

/-- C3 counterexample: the descriptor "foo" satisfies none of the three
classifications, contradicting the claim that exactly one always holds. -/
theorem classification_counterexample :
    is_primitive "foo" = false ∧ is_array "foo" = false ∧ is_pointer "foo" = false := by
  refine ⟨by decide, by decide, by decide⟩

/-- C3 amended: for every descriptor string at most one of the three
classifications holds, and for every descriptor of the vocabulary (one of
the nine atomic names, or an atomic name suffixed with the array marker
or the pointer marker) at least — hence exactly — one holds. -/
theorem classification_exclusive (ty : String) :
    (¬(is_primitive ty = true ∧ is_array ty = true)
      ∧ ¬(is_primitive ty = true ∧ is_pointer ty = true)
      ∧ ¬(is_array ty = true ∧ is_pointer ty = true))
    ∧ ((∃ b ∈ primitiveNames, ty = b ∨ ty = b ++ "[]" ∨ ty = b ++ "*") →
        (is_primitive ty || is_array ty || is_pointer ty) = true) := by
  refine ⟨⟨?_, ?_, ?_⟩, ?_⟩
  · rintro ⟨hp, ha⟩
    have hmem : ty ∈ primitiveNames := by simpa [is_primitive] using hp
    fin_cases hmem <;> revert ha <;> decide
  · rintro ⟨hp, ha⟩
    have hmem : ty ∈ primitiveNames := by simpa [is_primitive] using hp
    fin_cases hmem <;> revert ha <;> decide
  · rintro ⟨ha, hp⟩
    rw [is_array, List.isSuffixOf_iff_suffix] at ha
    rw [is_pointer, List.isSuffixOf_iff_suffix] at hp
    obtain ⟨u, hu⟩ := ha
    obtain ⟨w, hw⟩ := hp
    have h := congrArg List.getLast? (hu.trans hw.symm)
    rw [show u ++ "[]".toList = (u ++ ['[']) ++ [']'] by simp, List.getLast?_concat] at h
    rw [show w ++ "*".toList = w ++ ['*'] from rfl, List.getLast?_concat] at h
    simp at h
  · rintro ⟨b, hb, hcase⟩
    fin_cases hb <;> rcases hcase with h | h | h <;> subst h <;> decide

/-- C3 witness: the amended statement instantiated at the vocabulary
descriptor "uint[]": classifications are mutually exclusive there and
exactly one (array) holds. -/
theorem classification_exclusive_witness :
    (¬(is_primitive "uint[]" = true ∧ is_array "uint[]" = true)
      ∧ ¬(is_primitive "uint[]" = true ∧ is_pointer "uint[]" = true)
      ∧ ¬(is_array "uint[]" = true ∧ is_pointer "uint[]" = true))
    ∧ (is_primitive "uint[]" || is_array "uint[]" || is_pointer "uint[]") = true :=
  ⟨(classification_exclusive "uint[]").1,
    (classification_exclusive "uint[]").2 ⟨"uint", by decide, Or.inr (Or.inl (by decide))⟩⟩

/-- C4 counterexample: the claim's width table gives 4 for int8 (code
name 'char'); the code returns 1. -/
theorem primitive_size_counterexample :
    primitive_size "char" = .ok 1 ∧ (1 : Nat) ≠ 4 := by
  refine ⟨by decide, by decide⟩

/-- Width table as the spec states it, amended only at int8/'char',
whose fixed byte width in the code is 1, not the 4 the claim lists. -/
def primitive_size_spec (ty : String) : Nat :=
  if ty = "uchar" then 1
  else if ty = "ushort" then 2
  else if ty = "uint" then 4
  else if ty = "char" then 1
  else if ty = "short" then 2
  else if ty = "int" then 4
  else if ty = "float" then 4
  else if ty = "double" then 8
  else 0

/-- C4 amended: `primitive_size` is total — it returns a value and never
raises — and returns the fixed widths 1/2/4/1/2/4/4/8 for the eight
fixed-width atomics and 0 for 'string' and every non-primitive
descriptor, array- and pointer-marked ones included. -/
theorem primitive_size_total (ty : String) :
    primitive_size ty = .ok (primitive_size_spec ty) := by
  by_cases h1 : ty = "uchar"
  · subst h1; decide
  by_cases h2 : ty = "ushort"
  · subst h2; decide
  by_cases h3 : ty = "uint"
  · subst h3; decide
  by_cases h4 : ty = "char"
  · subst h4; decide
  by_cases h5 : ty = "short"
  · subst h5; decide
  by_cases h6 : ty = "int"
  · subst h6; decide
  by_cases h7 : ty = "float"
  · subst h7; decide
  by_cases h8 : ty = "double"
  · subst h8; decide
  by_cases h9 : ty = "string"
  · subst h9; decide
  · have hp : is_primitive ty = false := by
      simp [is_primitive, primitiveNames, h1, h2, h3, h4, h5, h6, h7, h8, h9]
    simp [primitive_size, primitive_size_spec,
      h1, h2, h3, h4, h5, h6, h7, h8, h9, hp]

/-- Unsigned unpacking never raises `ValueError`. -/
theorem unpackUnsigned_ne_valueError (st : FileState) (w : Nat) :
    (unpackUnsigned st w).1 ≠ .error .valueError := by
  simp only [unpackUnsigned]
  split <;> simp

/-- Signed unpacking never raises `ValueError`. -/
theorem unpackSigned_ne_valueError (st : FileState) (w : Nat) :
    (unpackSigned st w).1 ≠ .error .valueError := by
  simp only [unpackSigned]
  split <;> simp

/-- Float unpacking never raises `ValueError`. -/
theorem unpackFloat_ne_valueError (st : FileState) :
    (unpackFloat st).1 ≠ .error .valueError := by
  simp only [unpackFloat]
  split <;> simp

/-- Double unpacking never raises `ValueError`. -/
theorem unpackDouble_ne_valueError (st : FileState) :
    (unpackDouble st).1 ≠ .error .valueError := by
  simp only [unpackDouble]
  split <;> simp

/-- String reading never raises `ValueError`. -/
theorem readString_ne_valueError (st : FileState) :
    (readString st).1 ≠ .error .valueError := by
  simp only [readString]
  split <;> simp

/-- C5: provided the initial seek succeeds (valid whence, non-negative
target), `read` raises `ValueError` exactly when the descriptor is not
one of the nine primitive names: array-marked, pointer-marked and
arbitrary strings are always rejected, and recognized names never
produce a `ValueError`. -/
theorem read_valueError_iff_not_primitive (st : FileState) (ty : String)
    (base offset : Int) (whence : String) (st1 : FileState)
    (hseek : seek st (base + offset) whence = .ok st1) :
    ((read st ty base offset whence).1 = .error .valueError ↔ is_primitive ty = false) := by
  simp only [read, hseek]
  by_cases h1 : ty = "uchar"
  · subst h1; simp [unpackUnsigned_ne_valueError, is_primitive, primitiveNames]
  by_cases h2 : ty = "ushort"
  · subst h2; simp [unpackUnsigned_ne_valueError, is_primitive, primitiveNames]
  by_cases h3 : ty = "uint"
  · subst h3; simp [unpackUnsigned_ne_valueError, is_primitive, primitiveNames]
  by_cases h4 : ty = "char"
  · subst h4; simp [unpackSigned_ne_valueError, is_primitive, primitiveNames]
  by_cases h5 : ty = "short"
  · subst h5; simp [unpackSigned_ne_valueError, is_primitive, primitiveNames]
  by_cases h6 : ty = "int"
  · subst h6; simp [unpackSigned_ne_valueError, is_primitive, primitiveNames]
  by_cases h7 : ty = "float"
  · subst h7; simp [unpackFloat_ne_valueError, is_primitive, primitiveNames]
  by_cases h8 : ty = "double"
  · subst h8; simp [unpackDouble_ne_valueError, is_primitive, primitiveNames]
  by_cases h9 : ty = "string"
  · subst h9; simp [readString_ne_valueError, is_primitive, primitiveNames]
  · simp [h1, h2, h3, h4, h5, h6, h7, h8, h9, is_primitive, primitiveNames]

/-- C5 witness: on an empty file with a successful seek to 0, reading
descriptor "uint[]" raises `ValueError`, and indeed "uint[]" is not
primitive. -/
theorem read_valueError_iff_not_primitive_witness :
    ((read ⟨[], 0⟩ "uint[]" 0 0 "start").1 = .error .valueError
      ↔ is_primitive "uint[]" = false) :=
  read_valueError_iff_not_primitive ⟨[], 0⟩ "uint[]" 0 0 "start" ⟨[], 0⟩ (by decide)

/-- C10: when the descriptor is unrecognized, `read` and `write` raise
`ValueError` only after the internal seek has executed: the resulting
state is exactly the successfully-seeked state `st1`, whose cursor for
an absolute seek sits at `base + offset` — not the unchanged input
state. -/
theorem invalid_descriptor_error_after_seek (st : FileState) (ty : String) (v : Value)
    (base offset : Int) (whence : String) (st1 : FileState)
    (hty : is_primitive ty = false)
    (hseek : seek st (base + offset) whence = .ok st1) :
    read st ty base offset whence = (.error .valueError, st1)
      ∧ write st ty v base offset whence = (.error .valueError, st1)
      ∧ (whence = "start" → (st1.pos : Int) = base + offset)
      ∧ (whence = "current" → (st1.pos : Int) = (st.pos : Int) + (base + offset)) := by
  have hne : ty ∉ primitiveNames := by simpa [is_primitive] using hty
  simp only [primitiveNames, List.mem_cons, List.mem_singleton, not_or] at hne
  obtain ⟨h1, h2, h3, h4, h5, h6, h7, h8, h9⟩ := hne
  refine ⟨?_, ?_, ?_, ?_⟩
  · simp [read, hseek, h1, h2, h3, h4, h5, h6, h7, h8, h9]
  · simp [write, hseek, h1, h2, h3, h4, h5, h6, h7, h8, h9]
  · intro hw
    subst hw
    unfold seek at hseek
    rw [if_pos rfl] at hseek
    split at hseek
    · simp at hseek
    · simp only [Except.ok.injEq] at hseek
      have hp := congrArg FileState.pos hseek
      simp only at hp
      omega
  · intro hw
    subst hw
    unfold seek at hseek
    rw [if_neg (by decide), if_pos rfl] at hseek
    split at hseek
    · simp at hseek
    · simp only [Except.ok.injEq] at hseek
      have hp := congrArg FileState.pos hseek
      simp only at hp
      omega

/-- C10 witness: reading or writing descriptor "uint[]" at absolute
offset 2 of a 3-byte file raises `ValueError` with the cursor left at 2. -/
theorem invalid_descriptor_error_after_seek_witness :
    read ⟨[5, 6, 7], 1⟩ "uint[]" 2 0 "start" = (.error .valueError, ⟨[5, 6, 7], 2⟩)
      ∧ write ⟨[5, 6, 7], 1⟩ "uint[]" (.vint 0) 2 0 "start"
          = (.error .valueError, ⟨[5, 6, 7], 2⟩)
      ∧ ("start" = "start" → ((2 : Nat) : Int) = 2 + 0)
      ∧ ("start" = "current" → ((2 : Nat) : Int) = ((1 : Nat) : Int) + (2 + 0)) :=
  invalid_descriptor_error_after_seek ⟨[5, 6, 7], 1⟩ "uint[]" (.vint 0) 2 0 "start"
    ⟨[5, 6, 7], 2⟩ (by decide) (by decide)

/-- Reading the byte suffix `s ++ 0 :: rest` as a C string yields `s`
when `s` has no zero byte. -/
theorem readCString_append (s rest : List Nat) (h : ∀ c ∈ s, c ≠ 0) :
    readCString (s ++ 0 :: rest) = some s := by
  induction s with
  | nil => simp [readCString]
  | cons a t ih =>
    have ha : a ≠ 0 := h a (by simp)
    have iht := ih (fun c hc => h c (by simp [hc]))
    simp [readCString, ha, iht]

/-- C6: for every ASCII string without embedded zero bytes, writing it
as 'string' at a position and reading 'string' back from that position
returns exactly the string, and the byte stored right after its
characters, at `pos + len(s)`, is the appended terminating zero. -/
theorem cstring_roundtrip (st : FileState) (s : List Nat) (pos : Nat)
    (hascii : ∀ c ∈ s, c < 128) (hnz : ∀ c ∈ s, c ≠ 0) :
    (write st "string" (.vstr s) (pos : Int) 0 "start").1 = .ok (s.length + 1) ∧
      (read (write st "string" (.vstr s) (pos : Int) 0 "start").2 "string"
        (pos : Int) 0 "start").1 = .ok (.vstr s) ∧
      (write st "string" (.vstr s) (pos : Int) 0 "start").2.data[pos + s.length]?
        = some 0 := by
  have hsk : ∀ u : FileState, seek u ((pos : Int) + 0) "start" = .ok { u with pos := pos } :=
    fun u => seek_start_pos u pos
  have hall : s.all (fun c => decide (c < 128)) = true := by
    rw [List.all_eq_true]
    intro c hc
    exact decide_eq_true (hascii c hc)
  have hd : (fwrite { st with pos := pos } (s ++ [0])).data.drop pos
      = s ++ 0 :: st.data.drop (pos + (s.length + 1)) := by
    have h := fwrite_data_drop { st with pos := pos } (s ++ [0])
    simp only [List.length_append, List.length_cons, List.length_nil] at h
    simpa using h
  have hw : write st "string" (.vstr s) (pos : Int) 0 "start"
      = (.ok (s.length + 1), fwrite { st with pos := pos } (s ++ [0])) := by
    simp only [write, hsk st]
    simp [packString, hall]
  rw [hw]
  refine ⟨rfl, ?_, ?_⟩
  · have hr : read (fwrite { st with pos := pos } (s ++ [0])) "string" (pos : Int) 0 "start"
        = readString { fwrite { st with pos := pos } (s ++ [0]) with pos := pos } := by
      simp only [read, hsk]
      simp
    rw [hr]
    simp only [readString]
    rw [show ({ fwrite { st with pos := pos } (s ++ [0]) with pos := pos }
        : FileState).data.drop pos
        = (fwrite { st with pos := pos } (s ++ [0])).data.drop pos from rfl]
    rw [hd, readCString_append s _ hnz]
  · rw [← List.getElem?_drop, hd]
    rw [List.getElem?_append_right (Nat.le_refl s.length)]
    simp

/-- C6 witness: writing the zero-free ASCII string with codes 104, 105
('hi') at position 0 of an empty file and reading it back. -/
theorem cstring_roundtrip_witness :
    (write ⟨[], 0⟩ "string" (.vstr [104, 105]) ((0 : Nat) : Int) 0 "start").1
        = .ok (List.length [104, 105] + 1) ∧
      (read (write ⟨[], 0⟩ "string" (.vstr [104, 105]) ((0 : Nat) : Int) 0 "start").2
        "string" ((0 : Nat) : Int) 0 "start").1 = .ok (.vstr [104, 105]) ∧
      (write ⟨[], 0⟩ "string" (.vstr [104, 105]) ((0 : Nat) : Int) 0 "start").2.data[
        0 + List.length [104, 105]]? = some 0 :=
  cstring_roundtrip ⟨[], 0⟩ [104, 105] 0 (by decide) (by decide)

/-- C7: after an absolute seek to `X`, `tell` returns `X`; after a
further relative seek by `Y` (with `X + Y` non-negative), `tell`
returns `X + Y`. -/
theorem seek_tell_positions (st : FileState) (X : Nat) (Y : Int) (h : 0 ≤ (X : Int) + Y) :
    ∃ st1 st2, seek st (X : Int) "start" = .ok st1 ∧ tell st1 = X
      ∧ seek st1 Y "current" = .ok st2 ∧ (tell st2 : Int) = (X : Int) + Y := by
  refine ⟨{ st with pos := X }, { st with pos := ((X : Int) + Y).toNat }, ?_, rfl, ?_, ?_⟩
  · have hs := seek_start st (X : Int) (by positivity)
    simpa using hs
  · have hc := seek_current { st with pos := X } Y (by simpa using h)
    simpa using hc
  · simp only [tell]
    omega

/-- C7 witness: seek to 5 from the start, then 2 back relative to the
current position, lands `tell` on 5 and then 3. -/
theorem seek_tell_positions_witness :
    ∃ st1 st2, seek ⟨[], 0⟩ ((5 : Nat) : Int) "start" = .ok st1 ∧ tell st1 = 5
      ∧ seek st1 (-2) "current" = .ok st2 ∧ (tell st2 : Int) = ((5 : Nat) : Int) + (-2) :=
  seek_tell_positions ⟨[], 0⟩ 5 (-2) (by decide)

/-- C8: writing `uint` value 0x01020304 at offset 0 of a fresh resource
reports 4 bytes written; the raw bytes read back by `read_chunk(0, 4)`
are 0x01, 0x02, 0x03, 0x04 most-significant first (big-endian), and
`read('uint', 0)` returns 0x01020304. -/
theorem uint_bigendian_scenario :
    ((write ⟨[], 0⟩ "uint" (.vint 0x01020304) 0 0 "start").1 = .ok 4)
    ∧ (read_chunk (write ⟨[], 0⟩ "uint" (.vint 0x01020304) 0 0 "start").2 0 4 "start").1
        = .ok [0x01, 0x02, 0x03, 0x04]
    ∧ (read (write ⟨[], 0⟩ "uint" (.vint 0x01020304) 0 0 "start").2 "uint" 0 0 "start").1
        = .ok (.vint 0x01020304) := by
  refine ⟨by decide, by decide, by decide⟩

/-- C9: provided the initial seek succeeds, `write` fails (returning no
byte count) with the encoding error for a value that does not fit the
descriptor: `struct.error` for an out-of-range integer on any of the six
fixed-width integer descriptors, and `UnicodeEncodeError` for a string
holding any non-ASCII character code. -/
theorem write_encoding_errors (st : FileState) (base offset : Int) (whence : String)
    (st1 : FileState) (hseek : seek st (base + offset) whence = .ok st1) :
    (∀ ty (i : Int), ty ∈ ["uchar", "ushort", "uint", "char", "short", "int"] →
        inRangeB ty (.vint i) = false →
        (write st ty (.vint i) base offset whence).1 = .error .structError)
    ∧ ∀ s : List Nat, (¬ ∀ c ∈ s, c < 128) →
        (write st "string" (.vstr s) base offset whence).1 = .error .unicodeEncodeError := by
  constructor
  · intro ty i hty hout
    fin_cases hty
    · replace hout : ¬(0 ≤ i ∧ i < (2 : Int) ^ 8) := by simpa [inRangeB] using hout
      norm_num at hout
      have hw : write st "uchar" (.vint i) base offset whence = packUnsigned st1 1 (.vint i) := by
        simp only [write, hseek]
        simp
      rw [hw]
      simp only [packUnsigned]
      rw [if_neg (by norm_num; omega)]
    · replace hout : ¬(0 ≤ i ∧ i < (2 : Int) ^ 16) := by simpa [inRangeB] using hout
      norm_num at hout
      have hw : write st "ushort" (.vint i) base offset whence
          = packUnsigned st1 2 (.vint i) := by
        simp only [write, hseek]
        simp
      rw [hw]
      simp only [packUnsigned]
      rw [if_neg (by norm_num; omega)]
    · replace hout : ¬(0 ≤ i ∧ i < (2 : Int) ^ 32) := by simpa [inRangeB] using hout
      norm_num at hout
      have hw : write st "uint" (.vint i) base offset whence = packUnsigned st1 4 (.vint i) := by
        simp only [write, hseek]
        simp
      rw [hw]
      simp only [packUnsigned]
      rw [if_neg (by norm_num; omega)]
    · replace hout : ¬(-((2 : Int) ^ 7) ≤ i ∧ i < (2 : Int) ^ 7) := by
        simpa [inRangeB] using hout
      norm_num at hout
      have hw : write st "char" (.vint i) base offset whence = packSigned st1 1 (.vint i) := by
        simp only [write, hseek]
        simp
      rw [hw]
      simp only [packSigned]
      rw [if_neg (by norm_num; omega)]
    · replace hout : ¬(-((2 : Int) ^ 15) ≤ i ∧ i < (2 : Int) ^ 15) := by
        simpa [inRangeB] using hout
      norm_num at hout
      have hw : write st "short" (.vint i) base offset whence = packSigned st1 2 (.vint i) := by
        simp only [write, hseek]
        simp
      rw [hw]
      simp only [packSigned]
      rw [if_neg (by norm_num; omega)]
    · replace hout : ¬(-((2 : Int) ^ 31) ≤ i ∧ i < (2 : Int) ^ 31) := by
        simpa [inRangeB] using hout
      norm_num at hout
      have hw : write st "int" (.vint i) base offset whence = packSigned st1 4 (.vint i) := by
        simp only [write, hseek]
        simp
      rw [hw]
      simp only [packSigned]
      rw [if_neg (by norm_num; omega)]
  · intro s hns
    have hf : s.all (fun c => decide (c < 128)) = false := by
      rcases Bool.eq_false_or_eq_true (s.all (fun c => decide (c < 128))) with h | h
      · exact absurd (fun c hc => of_decide_eq_true (List.all_eq_true.mp h c hc)) hns
      · exact h
    have hw : write st "string" (.vstr s) base offset whence = packString st1 (.vstr s) := by
      simp only [write, hseek]
      simp
    rw [hw]
    simp only [packString]
    rw [if_neg (by simp [hf])]

/-- C9 witness: writing 256 as 'uchar' fails with `struct.error`, and
writing the one-character string with code 200 fails with
`UnicodeEncodeError`, both on an empty file at offset 0. -/
theorem write_encoding_errors_witness :
    (write ⟨[], 0⟩ "uchar" (.vint 256) 0 0 "start").1 = .error .structError
    ∧ (write ⟨[], 0⟩ "string" (.vstr [200]) 0 0 "start").1 = .error .unicodeEncodeError :=
  ⟨(write_encoding_errors ⟨[], 0⟩ 0 0 "start" ⟨[], 0⟩ (by decide)).1 "uchar" 256
      (by decide) (by decide),
    (write_encoding_errors ⟨[], 0⟩ 0 0 "start" ⟨[], 0⟩ (by decide)).2 [200] (by decide)⟩

end BinFile
